import Mathlib

/-!
Verification development for the domain-configured article-extraction pipeline
(`scraper_config.py`, `main.py`, `main_async.py`).

Conventions of the shallow embedding:
* Python strings are modelled as `Str := List Char`; `str` converts a Lean
  string literal.  `lowerS` models `str.lower` (ASCII case folding, which covers
  every cased character appearing in the sources; Gujarati text is caseless).
* Python dicts (insertion ordered, last write wins) are association lists with
  `dictGet` / `dictSet`.
* The rendered DOM is the inductive `Forest`: a document-ordered sequence of
  text nodes and element nodes (tag name, class attribute token list,
  children).  An element viewed on its own is an `ENode`.  Node ids model
  object identity of BeautifulSoup nodes, which is needed because the source
  mutates the soup in place (`decompose`) while holding references.
* CSS selectors used by the repository are of the shapes `.c`, `.c1.c2`,
  `tag.c1.c2` and `tag.c[class*='p']`; `Selector` captures exactly these
  (required tag, required class tokens, required class-substring patterns).
-/

abbrev Str := List Char

def str (s : String) : Str := s.toList

/-- Model of Python `str.lower` (ASCII folding). -/
def lowerS (s : Str) : Str := s.map Char.toLower

/-- Whitespace stripped by Python `str.strip()`. -/
def pyIsSpace (c : Char) : Bool :=
  c = ' ' || c = '\t' || c = '\n' || c = '\r' || c = '\x0b' || c = '\x0c'

/-- Model of Python `str.strip()`. -/
def pyStrip (s : Str) : Str :=
  ((s.dropWhile pyIsSpace).reverse.dropWhile pyIsSpace).reverse

/-- Boolean "needle is a prefix of hay". -/
def prefixB : Str → Str → Bool
  | [], _ => true
  | _ :: _, [] => false
  | a :: as, b :: bs => a = b && prefixB as bs

/-- Boolean "needle occurs as a contiguous substring of hay": Python `needle in hay`. -/
def substrB (needle : Str) : Str → Bool
  | [] => needle.isEmpty
  | b :: rest => prefixB needle (b :: rest) || substrB needle rest

/-- Model of `is_noise` from `main.py` lines 60-63 and `main_async.py` lines 8-11:
lowercase the text, then test plain substring containment of each keyword as written. -/
def is_noise (text : Str) (noise_keywords : List Str) : Bool :=
  let t := lowerS text
  noise_keywords.any (fun k => substrB k t)

/-- Modelled from the spec: the fully case-insensitive matching relation that the
spec ascribes to noise keywords ("case-insensitive substrings", insensitive to the
casing of both sides).  Used to compare the source's `is_noise` against the spec. -/
def noiseCI (text : Str) (kw : Str) : Bool := substrB (lowerS kw) (lowerS text)

/-- Case-insensitive containment used by the `re.IGNORECASE` noise-removal regex. -/
def matchesCI (s : Str) (kw : Str) : Bool := substrB (lowerS kw) (lowerS s)

/-! URL parsing: the fragment of `urllib.parse.urlparse` that
`DomainRegistry._extract_domain` (scraper_config.py lines 112-116) relies on:
`urlparse(url).netloc`.  A leading scheme (letters/digits/`+-.` up to the first
`:`, starting with a letter) is stripped; the netloc is then the text after a
leading `//` up to the first `/`, `?` or `#` — including any `:port` suffix. -/

def isSchemeChar (c : Char) : Bool :=
  c.isAlpha || c.isDigit || c = '+' || c = '-' || c = '.'

/-- Strip a valid URL scheme (and its `:`) from the front of the string, if present. -/
def splitScheme (s : Str) : Str :=
  match s.takeWhile (fun c => c ≠ ':') with
  | [] => s
  | c0 :: cs =>
    if (c0 :: cs).length < s.length && c0.isAlpha && (c0 :: cs).all isSchemeChar then
      s.drop ((c0 :: cs).length + 1)
    else s

/-- Model of `urlparse(url).netloc`. -/
def netlocOf (s : Str) : Str :=
  match splitScheme s with
  | '/' :: '/' :: r => r.takeWhile (fun c => c ≠ '/' && c ≠ '?' && c ≠ '#')
  | _ => []

/-! Python dict as an association list: insertion order, last write wins. -/

def dictGet {β : Type} (m : List (Str × β)) (k : Str) : Option β :=
  match m with
  | [] => none
  | (k1, v) :: rest => if k1 = k then some v else dictGet rest k

def dictSet {β : Type} (m : List (Str × β)) (k : Str) (v : β) : List (Str × β) :=
  match m with
  | [] => [(k, v)]
  | (k1, v1) :: rest => if k1 = k then (k, v) :: rest else (k1, v1) :: dictSet rest k v

/-! The DOM model.  `Forest` is a document-ordered sequence of sibling nodes;
`ENode` is one element node viewed with its own subtree. -/

inductive Forest where
  | nil : Forest
  | text (id : Nat) (s : Str) (rest : Forest) : Forest
  | elem (id : Nat) (name : Str) (cls : List Str) (children : Forest) (rest : Forest) : Forest
deriving Repr, DecidableEq

structure ENode where
  id : Nat
  name : Str
  cls : List Str
  children : Forest
deriving Repr, DecidableEq

/-- Ids of all nodes of the forest, in document (preorder) order. -/
def ids : Forest → List Nat
  | .nil => []
  | .text i _ r => i :: ids r
  | .elem i _ _ ch r => i :: (ids ch ++ ids r)

/-- All element nodes of the forest, in document order. -/
def elemsOf : Forest → List ENode
  | .nil => []
  | .text _ _ r => elemsOf r
  | .elem i nm cs ch r => ⟨i, nm, cs, ch⟩ :: (elemsOf ch ++ elemsOf r)

/-- Ids of an element node and of everything in its subtree. -/
def subIds (e : ENode) : List Nat := e.id :: ids e.children

/-- All text nodes `(id, content)` of the forest, in document order:
the list traversed by `soup.find_all(string=...)`. -/
def textNodesOf : Forest → List (Nat × Str)
  | .nil => []
  | .text i s r => (i, s) :: textNodesOf r
  | .elem _ _ _ ch r => textNodesOf ch ++ textNodesOf r

/-- Model of BeautifulSoup `get_text(strip=True)` applied to a node list:
each descendant text node is stripped and the results are concatenated. -/
def textF : Forest → Str
  | .nil => []
  | .text _ s r => pyStrip s ++ textF r
  | .elem _ _ _ ch r => textF ch ++ textF r

/-- CSS selector of the shapes used by the repository:
optional required tag, required class tokens, required `[class*='p']` patterns. -/
structure Selector where
  tag : Option Str := none
  classNames : List Str := []
  classSubstrs : List Str := []
deriving Repr, DecidableEq

def selMatches (sel : Selector) (e : ENode) : Bool :=
  (match sel.tag with
   | none => true
   | some t => e.name = t) &&
  sel.classNames.all (fun c => e.cls.contains c) &&
  sel.classSubstrs.all (fun p => e.cls.any (fun c => substrB p c))

/-- Model of `soup.select(selector)`: matching elements in document order. -/
def selectAll (sel : Selector) (f : Forest) : List ENode :=
  (elemsOf f).filter (fun e => selMatches sel e)

/-- Model of `soup.select_one(selector)`. -/
def selectOne (sel : Selector) (f : Forest) : Option ENode :=
  (selectAll sel f).head?

/-- Remove from the forest every element subtree whose root satisfies `p`.
This is the net effect of `for elem in soup.select(sel): elem.decompose()`
(with `p` the selector match) and of `parent.decompose()` (with `p` an id test):
decomposing a node detaches and destroys its whole subtree, and decomposing an
already-detached descendant is a no-op. -/
def pruneBy (p : ENode → Bool) : Forest → Forest
  | .nil => .nil
  | .text i s r => .text i s (pruneBy p r)
  | .elem i nm cs ch r =>
    if p ⟨i, nm, cs, ch⟩ then pruneBy p r
    else .elem i nm cs (pruneBy p ch) (pruneBy p r)

/-! The noise-keyword removal step of `main.py` lines 214-229: the list of text
nodes matching the keyword regex (case-insensitive) is computed up front; each is
then processed in document order against the *current* tree — if the text node is
still attached and its immediate parent is a small-container tag whose current
stripped text is under 200 characters, the parent subtree is decomposed.
A text node detached by an earlier decompose raises `AttributeError` when its
parent is accessed and is skipped (`except (AttributeError, TypeError)`),
modelled here by `findParentOfText` returning `none`. -/

/-- Is a text node with this id a direct child in this node list? -/
def hasTextChild (tid : Nat) : Forest → Bool
  | .nil => false
  | .text i _ r => i = tid || hasTextChild tid r
  | .elem _ _ _ _ r => hasTextChild tid r

/-- The immediate parent element of the text node with id `tid` (first hit in
document order), or `none` when no attached element has such a text child. -/
def findParentOfText (tid : Nat) : Forest → Option ENode
  | .nil => none
  | .text _ _ r => findParentOfText tid r
  | .elem i nm cs ch r =>
    if hasTextChild tid ch then some ⟨i, nm, cs, ch⟩
    else
      match findParentOfText tid ch with
      | some p => some p
      | none => findParentOfText tid r

/-- The "small container" tags of `main.py` line 225. -/
def smallTags : List Str :=
  [str "div", str "span", str "aside", str "footer", str "nav"]

/-- Text-node ids whose content matches the `re.IGNORECASE` alternation of the
noise keywords, collected in document order before any removal. -/
def noiseTargets (kws : List Str) (f : Forest) : List Nat :=
  (textNodesOf f).filterMap
    (fun p => if kws.any (fun k => matchesCI p.2 k) then some p.1 else none)

/-- One iteration of the removal loop, acting on the current tree. -/
def noiseStep (f : Forest) (tid : Nat) : Forest :=
  match findParentOfText tid f with
  | none => f
  | some p =>
    if smallTags.contains p.name && (textF p.children).length < 200 then
      pruneBy (fun e => e.id = p.id) f
    else f

/-- The whole noise-keyword removal step. -/
def noiseRemoval (kws : List Str) (f : Forest) : Forest :=
  (noiseTargets kws f).foldl noiseStep f

/-- Does this element's class attribute match `re.compile(r"related|also")`,
as used by `tag.find_parent(class_=...)` in `main.py` line 248? -/
def relatedCls (e : ENode) : Bool :=
  e.cls.any (fun c => substrB (str "related") c || substrB (str "also") c)

/-- One harvest candidate produced by `block.find_all(config.allowed_tags)`:
its node id, tag name, `get_text(strip=True)` text, and whether some ancestor
element (up to the document root) has a class matching `related|also`. -/
structure Cand where
  id : Nat
  name : Str
  text : Str
  inRelated : Bool
deriving Repr, DecidableEq

/-- Candidates of `find_all` over a node list in document order.  `anc` records
whether some strict ancestor of these nodes has a `related|also` class. -/
def candsIn (allowed : List Str) (anc : Bool) : Forest → List Cand
  | .nil => []
  | .text _ _ r => candsIn allowed anc r
  | .elem i nm cs ch r =>
    (if allowed.contains nm then [⟨i, nm, textF ch, anc⟩] else []) ++
    (candsIn allowed (anc || relatedCls ⟨i, nm, cs, ch⟩) ch ++ candsIn allowed anc r)

/-- Locate the element with id `i`, returning it together with the accumulated
`related|also` flag of its strict ancestors. -/
def getByIdFlag (i : Nat) (anc : Bool) : Forest → Option (ENode × Bool)
  | .nil => none
  | .text _ _ r => getByIdFlag i anc r
  | .elem j nm cs ch r =>
    if j = i then some (⟨j, nm, cs, ch⟩, anc)
    else
      match getByIdFlag i (anc || relatedCls ⟨j, nm, cs, ch⟩) ch with
      | some res => some res
      | none => getByIdFlag i anc r

/-! The harvest loop of `main.py` lines 231-258 / `main_async.py` lines 132-159. -/

/-- One iteration of the harvest loop.  State: (`seen` texts, emitted pairs). -/
def harvestStep (cfg_min : Nat) (cfg_kws : List Str)
    (st : List Str × List (Str × Str)) (c : Cand) : List Str × List (Str × Str) :=
  if c.text.length < cfg_min then st
  else if is_noise c.text cfg_kws then st
  else if (c.name = str "h3" || c.name = str "h4") && c.inRelated then st
  else if st.1.contains c.text then st
  else (c.text :: st.1, st.2 ++ [(c.name, c.text)])

def harvestAux (cfg_min : Nat) (cfg_kws : List Str)
    (st : List Str × List (Str × Str)) (l : List Cand) : List Str × List (Str × Str) :=
  l.foldl (harvestStep cfg_min cfg_kws) st

/-- The emitted `(tagName, text)` pairs of the harvest loop over a candidate list. -/
def harvestPairs (cfg_min : Nat) (cfg_kws : List Str) (l : List Cand) : List (Str × Str) :=
  (harvestAux cfg_min cfg_kws ([], []) l).2

/-- Does a candidate pass the three content filters (length, noise, related-heading)?
Deduplication is handled by the `seen` state, not here. -/
def passesB (cfg_min : Nat) (cfg_kws : List Str) (c : Cand) : Bool :=
  !(c.text.length < cfg_min) && !(is_noise c.text cfg_kws) &&
  !((c.name = str "h3" || c.name = str "h4") && c.inRelated)

/-! The per-domain configuration (`scraper_config.py` lines 13-51) and the
extraction pipeline of `main.py` lines 173-258. -/

structure DomainConfig where
  domain_name : Str
  article_container_selector : Selector
  article_id_pattern : Option Str := none
  load_more_selector : Option Str := none
  allowed_tags : List Str :=
    [str "h1", str "h2", str "h3", str "h4", str "h5", str "h6",
     str "p", str "b", str "strong", str "li"]
  noise_keywords : List Str := []
  elements_to_remove : List Selector := []
  min_text_length : Nat := 25
  wait_timeout : Nat := 15000
  click_timeout : Nat := 3000
  page_load_timeout : Nat := 60000
  wait_until : Str := str "domcontentloaded"
deriving Repr, DecidableEq

/-- Model of `main.py` lines 196-201: the first class of the located container
that starts with the configured prefix, if a prefix is configured. -/
def articleIdOf (cfg : DomainConfig) (fs : ENode) : Option Str :=
  match cfg.article_id_pattern with
  | none => none
  | some p => fs.cls.find? (fun c => prefixB p c)

/-- Model of `main.py` lines 203-207: the block set, as node ids.  Blocks are
selected on the soup *before* the removal steps mutate it; ids model the object
references the source holds across the mutation. -/
def blockIdsOf (cfg : DomainConfig) (soup : Forest) (fs : ENode) : List Nat :=
  match articleIdOf cfg fs with
  | some aid => (selectAll ⟨some (str "div"), [str "story", aid], []⟩ soup).map ENode.id
  | none => [fs.id]

/-- Model of `main.py` lines 209-229: the soup after the `elements_to_remove`
prunes (in listed order, whole document) and then the noise-keyword removal
(guarded by `if config.noise_keywords`).  Harvesting reads from this tree. -/
def harvestSource (cfg : DomainConfig) (soup : Forest) : Forest :=
  let t1 := cfg.elements_to_remove.foldl (fun f sel => pruneBy (fun e => selMatches sel e) f) soup
  if cfg.noise_keywords = [] then t1 else noiseRemoval cfg.noise_keywords t1

/-- The candidates fed to the harvest loop: for each block id, the block is
looked up in the processed tree (a decomposed block contributes nothing) and its
`find_all(config.allowed_tags)` elements are collected with their
related-ancestor flags. -/
def pipelineCandidates (cfg : DomainConfig) (soup : Forest) : List Cand :=
  match selectOne cfg.article_container_selector soup with
  | none => []
  | some fs =>
    (blockIdsOf cfg soup fs).foldr
      (fun i acc =>
        (match getByIdFlag i false (harvestSource cfg soup) with
         | some (b, fb) => candsIn cfg.allowed_tags (fb || relatedCls b) b.children
         | none => []) ++ acc)
      []

/-- Result of the parse-and-harvest part of `extract_article`:
`fallback` models `return try_generic_fallback(url)`, `noneRes` models
`return None` (the dead re-check at lines 192-193), `content s` models
returning the joined harvest output. -/
inductive PRes where
  | fallback
  | noneRes
  | content (s : Str)
deriving Repr, DecidableEq

def renderPair (p : Str × Str) : Str :=
  '<' :: (p.1 ++ '>' :: p.2) ++ '<' :: '/' :: p.1 ++ ['>']

def joinSep (sep : Str) : List Str → Str
  | [] => []
  | [x] => x
  | x :: y :: rest => x ++ sep ++ joinSep sep (y :: rest)

/-- Model of `main.py` lines 173-258 given the parsed soup: locate the container
(falling back when absent or empty of stripped text — line 176), then harvest;
the `if not first_story: return None` re-check at line 192 is unreachable
because line 176 already returned on that condition, so `noneRes` is never
produced. -/
def processHtml (cfg : DomainConfig) (soup : Forest) : PRes :=
  match selectOne cfg.article_container_selector soup with
  | none => .fallback
  | some fs =>
    if textF fs.children = [] then .fallback
    else
      .content (joinSep (str "\n\n")
        ((harvestPairs cfg.min_text_length cfg.noise_keywords
            (pipelineCandidates cfg soup)).map renderPair))

/-! The domain registry (`scraper_config.py` lines 54-116) and its
pre-configured contents (lines 123-225). -/

structure DomainRegistry where
  configs : List (Str × DomainConfig)
  domain_map : List (Str × Str)
deriving Repr, DecidableEq

/-- Model of `DomainRegistry.register` (lines 61-76), including the Python
truthiness of `if domains:` — `None` and the empty list both take the
else-branch that binds `config.domain_name` itself as the only hostname. -/
def DomainRegistry.register (r : DomainRegistry) (config : DomainConfig)
    (domains : Option (List Str)) : DomainRegistry :=
  let cfgs := dictSet r.configs config.domain_name config
  match domains with
  | some (d :: ds) =>
    { configs := cfgs,
      domain_map := (d :: ds).foldl (fun m dom => dictSet m (lowerS dom) config.domain_name)
        r.domain_map }
  | _ => { configs := cfgs,
           domain_map := dictSet r.domain_map (lowerS config.domain_name) config.domain_name }

/-- Model of `DomainRegistry._extract_domain` (lines 112-116). -/
def DomainRegistry.extract_domain (url : Str) : Str := netlocOf url

/-- Model of `DomainRegistry.get_config` (lines 78-94), including the Python
truthiness of `if config_name:` (an empty-string name is treated as absent). -/
def DomainRegistry.get_config (r : DomainRegistry) (url : Str) : Option DomainConfig :=
  match dictGet r.domain_map (lowerS (DomainRegistry.extract_domain url)) with
  | some name => if name = [] then none else dictGet r.configs name
  | none => none

/-- Model of `DomainRegistry.get_config_by_name` (lines 96-106). -/
def DomainRegistry.get_config_by_name (r : DomainRegistry) (name : Str) : Option DomainConfig :=
  dictGet r.configs name

/-- Model of `DomainRegistry.list_domains` (lines 108-110). -/
def DomainRegistry.list_domains (r : DomainRegistry) : List Str :=
  r.configs.map Prod.fst

/-- Model of `DomainRegistry()` — both dicts start empty. -/
def emptyRegistry : DomainRegistry := ⟨[], []⟩

def SANDESH_CONFIG : DomainConfig :=
  { domain_name := str "sandesh",
    article_container_selector := ⟨some (str "div"), [str "story"], [str "article-"]⟩,
    article_id_pattern := some (str "article-"),
    load_more_selector := some (str "//*[contains(@class,'py-4') and contains(@class,'font-normal')]"),
    allowed_tags := [str "h1", str "h2", str "h3", str "h4", str "h5", str "h6",
                     str "p", str "b", str "strong", str "li"],
    noise_keywords := [str "advertisement", str "also read", str "related articles",
                       str "share", str "follow us", str "post a comment",
                       str "descriptions off", str "subtitles", str "alternate audio",
                       str "this is a modal window", str "beginning of dialog window",
                       str "end of dialog window", str "આ પણ વાંચો"],
    elements_to_remove := [⟨none, [str "inner_ar"], []⟩,
                           ⟨none, [str "related-content-alsoread"], []⟩],
    min_text_length := 25,
    wait_timeout := 3000,
    click_timeout := 2000,
    page_load_timeout := 15000 }

def TV9_GUJARATI_CONFIG : DomainConfig :=
  { domain_name := str "tv9gujarati",
    article_container_selector := ⟨some (str "div"), [str "detailBody"], []⟩,
    allowed_tags := [str "h1", str "h2", str "h3", str "h4", str "h5", str "h6",
                     str "p", str "b", str "strong", str "li", str "div"],
    noise_keywords := [str "advertisement", str "also read", str "related articles",
                       str "share", str "follow us", str "post a comment",
                       str "આ પણ વાંચો", str "વધુ વાંચો"],
    elements_to_remove := [⟨none, [str "trc_rbox_container"], []⟩,
                           ⟨none, [str "ad-container"], []⟩,
                           ⟨none, [str "social-share"], []⟩],
    min_text_length := 25,
    wait_timeout := 5000,
    click_timeout := 2000,
    page_load_timeout := 15000 }

def GUJARAT_SAMACHAR_CONFIG : DomainConfig :=
  { domain_name := str "gujaratsamachar",
    article_container_selector := ⟨none, [str "detail-news", str "article-detail-news"], []⟩,
    allowed_tags := [str "h1", str "h2", str "h3", str "h4", str "h5", str "h6",
                     str "p", str "b", str "strong", str "li", str "div"],
    noise_keywords := [str "advertisement", str "also read", str "related articles",
                       str "share", str "follow us", str "post a comment",
                       str "આ પણ વાંચો", str "વધુ વાંચો"],
    elements_to_remove := [⟨none, [str "multiple", str "card"], []⟩,
                           ⟨none, [str "ad-container"], []⟩,
                           ⟨none, [str "social-share"], []⟩],
    min_text_length := 25,
    wait_timeout := 5000,
    click_timeout := 2000,
    page_load_timeout := 15000 }

def AAJTAK_CONFIG : DomainConfig :=
  { domain_name := str "aajtak",
    article_container_selector := ⟨none, [str "content-area"], []⟩,
    load_more_selector := some (str ".readmoreAction"),
    allowed_tags := [str "h1", str "h2", str "h3", str "h4", str "h5", str "h6",
                     str "p", str "b", str "strong", str "li", str "div"],
    noise_keywords := [str "advertisement", str "also read", str "related articles",
                       str "share", str "follow us", str "post a comment",
                       str "આ પણ વાંચો", str "વધુ વાંચો"],
    elements_to_remove := [⟨none, [str "ad-container"], []⟩,
                           ⟨none, [str "social-share"], []⟩,
                           ⟨none, [str "tbl-feed-card"], []⟩],
    min_text_length := 25,
    wait_timeout := 5000,
    click_timeout := 2000,
    page_load_timeout := 15000 }

/-- The global registry of `scraper_config.py` lines 221-225. -/
def registry : DomainRegistry :=
  ((((emptyRegistry.register SANDESH_CONFIG
        (some [str "sandesh.com", str "www.sandesh.com"])).register TV9_GUJARATI_CONFIG
        (some [str "tv9gujarati.com", str "www.tv9gujarati.com"])).register GUJARAT_SAMACHAR_CONFIG
        (some [str "gujaratsamachar.com", str "www.gujaratsamachar.com"])).register AAJTAK_CONFIG
        (some [str "aajtak.in", str "www.aajtak.in"]))

/-- Model of the module-level convenience `get_config_for_url` (lines 232-234). -/
def get_config_for_url (url : Str) : Option DomainConfig := registry.get_config url

/-- Model of the module-level convenience `get_config_by_name` (lines 237-239). -/
def get_config_by_name (name : Str) : Option DomainConfig := registry.get_config_by_name name

/-- A registry reached from `DomainRegistry()` by a sequence of `register` calls. -/
def applyOps (ops : List (DomainConfig × Option (List Str))) (r : DomainRegistry) : DomainRegistry :=
  ops.foldl (fun acc op => acc.register op.1 op.2) r

/-! Configuration resolution of the two façades. -/

/-- Which path `extract_article` (main.py) takes after its resolution step. -/
inductive SyncPath where
  | configured (cfg : DomainConfig)
  | generic
deriving Repr, DecidableEq

/-- Model of the resolution logic of `extract_article`, `main.py` lines 96-121:
an explicit config wins; else a truthy `domain_name` is looked up by name; if
the resulting config is still `None` the function returns
`try_generic_fallback(url)` — the URL's host is never consulted, and no
exception is ever raised by this step. -/
def resolveSync (r : DomainRegistry) (config : Option DomainConfig)
    (domain_name : Option Str) (_url : Str) : SyncPath :=
  let cfg2 : Option DomainConfig :=
    match config, domain_name with
    | some c, _ => some c
    | none, some n => if n = [] then none else r.get_config_by_name n
    | none, none => none
  match cfg2 with
  | none => SyncPath.generic
  | some c => SyncPath.configured c

/-- Which path `extract_article_async` (main_async.py) takes after resolution. -/
inductive AsyncPath where
  | configured (cfg : DomainConfig)
  | raiseValueError
deriving Repr, DecidableEq

/-- Model of the resolution logic of `extract_article_async`, `main_async.py`
lines 44-53: an explicit config wins; a truthy `domain_name` is looked up by
name, raising `ValueError` when absent; otherwise the URL is resolved through
the registry, raising `ValueError` when absent (no generic fallback exists in
this variant). -/
def resolveAsync (r : DomainRegistry) (config : Option DomainConfig)
    (domain_name : Option Str) (url : Str) : AsyncPath :=
  match config with
  | some c => .configured c
  | none =>
    match domain_name with
    | some n =>
      if n = [] then
        match r.get_config url with
        | none => .raiseValueError
        | some c => .configured c
      else
        match r.get_config_by_name n with
        | none => .raiseValueError
        | some c => .configured c
    | none =>
      match r.get_config url with
      | none => .raiseValueError
      | some c => .configured c

/-! Concrete inputs used by the witnesses and counterexamples below. -/

/-- A minimal configuration: container `.story`, harvest `p` tags, short minimum. -/
def c5cfg : DomainConfig :=
  { domain_name := str "w5",
    article_container_selector := ⟨none, [str "story"], []⟩,
    allowed_tags := [str "p"],
    min_text_length := 2 }

/-- Two `p` elements in different DOM locations carrying identical trimmed text. -/
def c5soup : Forest :=
  .elem 1 (str "div") [str "story"]
    (.elem 2 (str "p") [] (.text 3 (str "same teaser text") .nil)
      (.elem 4 (str "div") []
        (.elem 5 (str "p") [] (.text 6 (str " same teaser text ") .nil) .nil) .nil))
    .nil

/-- Noise-removal counterexample input: keyword list. -/
def c7kws : List Str := [str "advertisement"]

/-- A 30-character text containing the keyword. -/
def c7s1 : Str := str "advertisement" ++ List.replicate 17 'a'

/-- A 180-character text containing the keyword. -/
def c7s2 : Str := str "advertisement" ++ List.replicate 167 'b'

/-- Children of the large container: a 30-character inner `div` (with the
keyword) followed by a 180-character direct text node (with the keyword);
total stripped text 210 characters. -/
def c7inner : Forest :=
  .elem 2 (str "div") [] (.text 3 c7s1 .nil) (.text 4 c7s2 .nil)

/-- A single `div` whose total stripped text is 210 characters. -/
def c7doc : Forest := .elem 1 (str "div") [] c7inner .nil

/-- Configuration for the elements-to-remove witness. -/
def c8cfg : DomainConfig :=
  { domain_name := str "w8",
    article_container_selector := ⟨none, [str "story"], []⟩,
    allowed_tags := [str "p"],
    min_text_length := 2,
    elements_to_remove := [⟨none, [str "ad-slot"], []⟩] }

/-- The ad-slot subtree that must be removed before harvesting. -/
def c8ad : ENode :=
  ⟨4, str "div", [str "ad-slot"],
    .elem 5 (str "p") [] (.text 6 (str "buy this great product now") .nil) .nil⟩

/-- A story containing a normal paragraph and the ad-slot subtree. -/
def c8soup : Forest :=
  .elem 1 (str "div") [str "story"]
    (.elem 2 (str "p") [] (.text 3 (str "real article paragraph") .nil)
      (.elem 4 (str "div") [str "ad-slot"]
        (.elem 5 (str "p") [] (.text 6 (str "buy this great product now") .nil) .nil) .nil))
    .nil

/-- Configuration for the C10 witness (default `min_text_length` 25). -/
def c10cfg : DomainConfig :=
  { domain_name := str "w10",
    article_container_selector := ⟨none, [str "story"], []⟩,
    allowed_tags := [str "p"] }

/-- A located, non-empty container whose only candidate is below `min_text_length`. -/
def c10soup : Forest :=
  .elem 1 (str "div") [str "story"]
    (.elem 2 (str "p") [] (.text 3 (str "too short") .nil) .nil)
    .nil

/-! Theorems.  Helper lemmas come first, then one theorem per claim (with its
witness or counterexample where required). -/

theorem dictGet_dictSet {β : Type} (m : List (Str × β)) (k : Str) (v : β) (k' : Str) :
    dictGet (dictSet m k v) k' = if k = k' then some v else dictGet m k' := by
  induction m with
  | nil =>
    by_cases h : k = k' <;> simp [dictGet, dictSet, h]
  | cons p rest ih =>
    obtain ⟨k1, v1⟩ := p
    by_cases h1 : k1 = k
    · subst h1
      by_cases h2 : k1 = k' <;> simp [dictGet, dictSet, h2]
    · by_cases h2 : k1 = k'
      · subst h2
        have hkk : k ≠ k1 := fun h => h1 h.symm
        simp [dictGet, dictSet, h1, hkk]
      · simp [dictGet, dictSet, h1, h2, ih]

theorem register_configs (r : DomainRegistry) (cfg : DomainConfig) (d : Option (List Str)) :
    (r.register cfg d).configs = dictSet r.configs cfg.domain_name cfg := by
  cases d with
  | none => rfl
  | some l => cases l <;> rfl

theorem register_name_inv (r : DomainRegistry) (cfg : DomainConfig) (d : Option (List Str))
    (hr : ∀ n c, dictGet r.configs n = some c → c.domain_name = n) :
    ∀ n c, dictGet (r.register cfg d).configs n = some c → c.domain_name = n := by
  intro n c h
  rw [register_configs, dictGet_dictSet] at h
  by_cases hk : cfg.domain_name = n
  · simp [hk] at h
    subst h
    exact hk
  · simp [hk] at h
    exact hr n c h

theorem applyOps_name_inv (ops : List (DomainConfig × Option (List Str))) (r : DomainRegistry)
    (hr : ∀ n c, dictGet r.configs n = some c → c.domain_name = n) :
    ∀ n c, dictGet (applyOps ops r).configs n = some c → c.domain_name = n := by
  induction ops generalizing r with
  | nil => exact hr
  | cons op ops ih =>
    have h1 := register_name_inv r op.1 op.2 hr
    simpa [applyOps, List.foldl_cons] using ih (r.register op.1 op.2) h1

/-- Claim C9: in every registry state reachable from the initial (empty) state
by a sequence of `register` calls, `get_config_by_name name` returns either
nothing or a configuration whose `domain_name` equals `name`. -/
theorem C9_registry_name_invariant (ops : List (DomainConfig × Option (List Str)))
    (name : Str) (cfg : DomainConfig)
    (h : (applyOps ops emptyRegistry).get_config_by_name name = some cfg) :
    cfg.domain_name = name := by
  refine applyOps_name_inv ops emptyRegistry ?_ name cfg h
  intro n c hc
  simp [emptyRegistry, dictGet] at hc

/-- Witness for C9 at a concrete register sequence and name. -/
theorem C9_registry_name_invariant_w :
    (applyOps [(SANDESH_CONFIG, none)] emptyRegistry).get_config_by_name (str "sandesh") =
      some SANDESH_CONFIG ∧
    SANDESH_CONFIG.domain_name = str "sandesh" :=
  ⟨by decide, C9_registry_name_invariant [(SANDESH_CONFIG, none)] (str "sandesh")
    SANDESH_CONFIG (by decide)⟩

/-- Claim C1 (code evaluated at the failing input): in `extract_article`
(main.py), a `domain_name` that is not registered does NOT raise — the resolution
silently selects the generic-fallback path for every such call.  The claim (and
`main_async.py` lines 47-49, the docstring "Raises: ValueError" of
`extract_article` itself, and the repository test
`test_api.test_extract_no_config_url`) say this situation must raise. -/
theorem C1_sync_unknown_name_falls_back (r : DomainRegistry) (n url : Str)
    (h : r.get_config_by_name n = none) :
    resolveSync r none (some n) url = SyncPath.generic := by
  cases n with
  | nil => simp [resolveSync]
  | cons a as => simp [resolveSync, h]

/-- Witness for C1 at the concrete unregistered name. -/
theorem C1_sync_unknown_name_falls_back_w :
    registry.get_config_by_name (str "nonexistent") = none ∧
    resolveSync registry none (some (str "nonexistent")) (str "https://sandesh.com/a") =
      SyncPath.generic :=
  ⟨by decide, C1_sync_unknown_name_falls_back registry (str "nonexistent")
    (str "https://sandesh.com/a") (by decide)⟩

/-- Counterexample to claim C2: for the registered host `sandesh.com`,
`extract_article` (sync) still takes the generic-fallback path — it never
consults the URL host; and for an unregistered host the async variant raises
`ValueError` instead of invoking the fallback. -/
theorem C2_counterexample :
    resolveSync registry none none (str "https://sandesh.com/x") = SyncPath.generic ∧
    (registry.get_config (str "https://sandesh.com/x")).map DomainConfig.domain_name =
      some (str "sandesh") ∧
    resolveAsync registry none none (str "https://example.com/a") = AsyncPath.raiseValueError := by
  refine ⟨by decide, by decide, by decide⟩

/-- Claim C2 as amended: with neither an explicit config nor a `domainName`,
the sync `extract_article` always takes the Generic Fallback path (the URL host
is never resolved, even for registered hosts), while `extract_article_async`
resolves the host — invoking the configured path when registered and raising
`ValueError` (not falling back) when unregistered. -/
theorem C2_amended :
    (∀ (r : DomainRegistry) (url : Str), resolveSync r none none url = SyncPath.generic) ∧
    (∀ (r : DomainRegistry) (url : Str) (c : DomainConfig), r.get_config url = some c →
      resolveAsync r none none url = AsyncPath.configured c) ∧
    (∀ (r : DomainRegistry) (url : Str), r.get_config url = none →
      resolveAsync r none none url = AsyncPath.raiseValueError) := by
  refine ⟨fun r url => rfl, fun r url c h => ?_, fun r url h => ?_⟩
  · simp [resolveAsync, h]
  · simp [resolveAsync, h]

/-- Witness for C2 (amended) at concrete registered and unregistered URLs. -/
theorem C2_amended_w :
    resolveSync registry none none (str "https://www.sandesh.com/y") = SyncPath.generic ∧
    (registry.get_config (str "https://example.com/a") = none ∧
      resolveAsync registry none none (str "https://example.com/a") =
        AsyncPath.raiseValueError) :=
  ⟨C2_amended.1 registry (str "https://www.sandesh.com/y"),
   by decide, C2_amended.2.2 registry (str "https://example.com/a") (by decide)⟩

/-- Counterexample to claim C3: noise matching is NOT insensitive to the casing
of the keyword — an upper-case keyword never matches, even when the spec's
case-insensitive relation holds. -/
theorem C3_counterexample :
    is_noise (str "Advertisement") [str "ADVERTISEMENT"] = false ∧
    noiseCI (str "Advertisement") (str "ADVERTISEMENT") = true := by
  refine ⟨by decide, by decide⟩

/-- Claim C3 as amended: `is_noise` lowercases the text only — a text is noise
iff some keyword, exactly as written, occurs in the lowercased text; this
coincides with full case-insensitivity exactly when every keyword is already
lowercase (as all keywords registered in this repository are). -/
theorem C3_amended (text : Str) (kws : List Str) :
    (is_noise text kws = true ↔ ∃ k ∈ kws, substrB k (lowerS text) = true) ∧
    ((∀ k ∈ kws, lowerS k = k) →
      (is_noise text kws = true ↔ ∃ k ∈ kws, noiseCI text k = true)) := by
  have base : is_noise text kws = true ↔ ∃ k ∈ kws, substrB k (lowerS text) = true := by
    simp [is_noise, List.any_eq_true]
  refine ⟨base, fun hlow => ?_⟩
  rw [base]
  constructor
  · rintro ⟨k, hk, hs⟩
    refine ⟨k, hk, ?_⟩
    simpa [noiseCI, hlow k hk] using hs
  · rintro ⟨k, hk, hs⟩
    refine ⟨k, hk, ?_⟩
    simpa [noiseCI, hlow k hk] using hs

/-- Witness for C3 (amended) on an all-lowercase keyword list. -/
theorem C3_amended_w :
    (∀ k ∈ [str "advertisement"], lowerS k = k) ∧
    (is_noise (str "An ADVERTISEMENT here ok") [str "advertisement"] = true ↔
      ∃ k ∈ [str "advertisement"], noiseCI (str "An ADVERTISEMENT here ok") k = true) :=
  ⟨by decide, (C3_amended (str "An ADVERTISEMENT here ok") [str "advertisement"]).2 (by decide)⟩

theorem takeWhile_append_stop (p : Char → Bool) (l t : Str) (b : Char)
    (hl : ∀ a ∈ l, p a = true) (hb : p b = false) :
    (l ++ b :: t).takeWhile p = l := by
  induction l with
  | nil => simp [List.takeWhile_cons, hb]
  | cons a as ih =>
    have ha := hl a (by simp)
    simp [List.takeWhile_cons, ha]
    exact ih (fun x hx => hl x (by simp [hx]))

theorem drop_append_cons (l t : Str) (b : Char) :
    (l ++ b :: t).drop (l.length + 1) = t := by
  induction l with
  | nil => simp
  | cons a as ih => simp [ih]

theorem schemeChar_ne_colon (c : Char) (h : isSchemeChar c = true) : c ≠ ':' := by
  intro hc
  subst hc
  simp [isSchemeChar] at h

/-- Counterexample to claim C4: resolution is NOT port-agnostic.  The host
`sandesh.com` is registered (the port-free URL resolves), but a URL carrying an
explicit port fails to resolve because the lookup key is the full netloc
`sandesh.com:8443`. -/
theorem C4_counterexample :
    registry.get_config (str "https://sandesh.com:8443/x") = none ∧
    netlocOf (str "https://sandesh.com:8443/x") = str "sandesh.com:8443" ∧
    (registry.get_config (str "https://sandesh.com/x")).map DomainConfig.domain_name =
      some (str "sandesh") :=
  ⟨by decide, by decide, by decide⟩

/-- Claim C4 as amended: `get_config` matches the URL's full netloc — including
any `:port` suffix — lowercased, against the registered hostname strings.  It is
case-insensitive on the netloc and scheme-agnostic (any syntactically valid
scheme yields the same netloc), but not port-agnostic: a URL with an explicit
port resolves only if that exact `host:port` string was registered. -/
theorem C4_amended :
    (∀ (r : DomainRegistry) (u1 u2 : Str),
      lowerS (netlocOf u1) = lowerS (netlocOf u2) → r.get_config u1 = r.get_config u2) ∧
    (∀ (c0 : Char) (cs host tail : Str), c0.isAlpha = true →
      (c0 :: cs).all isSchemeChar = true →
      (∀ c ∈ host, (c ≠ '/' && c ≠ '?' && c ≠ '#') = true) →
      netlocOf ((c0 :: cs) ++ ':' :: '/' :: '/' :: (host ++ '/' :: tail)) = host) := by
  constructor
  · intro r u1 u2 h
    simp only [DomainRegistry.get_config, DomainRegistry.extract_domain]
    rw [h]
  · intro c0 cs host tail h0 hs hh
    have hcolon : ∀ a ∈ (c0 :: cs), (fun c => decide (c ≠ ':')) a = true := by
      intro a ha
      have hc := List.all_eq_true.mp hs a ha
      simp [schemeChar_ne_colon a hc]
    have htw := takeWhile_append_stop (fun c => decide (c ≠ ':')) (c0 :: cs)
      ('/' :: '/' :: (host ++ '/' :: tail)) ':' hcolon (by decide)
    have hdrop := drop_append_cons (c0 :: cs) ('/' :: '/' :: (host ++ '/' :: tail)) ':'
    have htw2 := takeWhile_append_stop (fun c => c ≠ '/' && c ≠ '?' && c ≠ '#') host tail '/'
      hh (by decide)
    simp only [netlocOf, splitScheme, htw, hdrop, List.length_cons, List.length_append,
      h0, List.all_cons, List.all_eq_true, Bool.and_eq_true, decide_eq_true_eq]
    rw [if_pos]
    · simpa using htw2
    · refine ⟨?_, by simpa using List.all_eq_true.mp hs⟩
      simp [List.length_append]

/-- Witness for C4 (amended): case-insensitive resolution of a registered host,
and scheme-generality of the netloc computation at a concrete URL. -/
theorem C4_amended_w :
    registry.get_config (str "HTTP://SANDESH.COM/a") =
      registry.get_config (str "https://sandesh.com/b") ∧
    netlocOf (str "https://sandesh.com/x") = str "sandesh.com" := by
  constructor
  · exact C4_amended.1 registry (str "HTTP://SANDESH.COM/a") (str "https://sandesh.com/b")
      (by decide)
  · have h2 := C4_amended.2 'h' (str "ttps") (str "sandesh.com") (str "x")
      (by decide) (by decide) (by decide)
    rw [show str "https://sandesh.com/x" =
      ('h' :: str "ttps") ++ ':' :: '/' :: '/' :: (str "sandesh.com" ++ '/' :: str "x")
      from by decide]
    exact h2

theorem harvestStep_canon (m : Nat) (k : List Str) (st : List Str × List (Str × Str)) (c : Cand) :
    harvestStep m k st c =
      if passesB m k c = true then
        (if st.1.contains c.text then st else (c.text :: st.1, st.2 ++ [(c.name, c.text)]))
      else st := by
  unfold harvestStep passesB
  by_cases h1 : c.text.length < m
  · simp [h1]
  · by_cases h2 : is_noise c.text k
    · simp [h1, h2]
    · by_cases h3 : ((c.name = str "h3" || c.name = str "h4") && c.inRelated) = true
      · simp [h1, h2, h3]
      · simp [h1, h2, h3]

theorem harvestStep_short (m : Nat) (k : List Str) (st : List Str × List (Str × Str)) (c : Cand)
    (h : c.text.length < m) : harvestStep m k st c = st := by
  unfold harvestStep
  simp [h]

theorem harvestAux_nil (m : Nat) (k : List Str) (st : List Str × List (Str × Str)) :
    harvestAux m k st [] = st := rfl

theorem harvestAux_cons (m : Nat) (k : List Str) (st : List Str × List (Str × Str))
    (c : Cand) (l : List Cand) :
    harvestAux m k st (c :: l) = harvestAux m k (harvestStep m k st c) l := rfl

theorem harvestAux_append (m : Nat) (k : List Str) (st : List Str × List (Str × Str))
    (l1 l2 : List Cand) :
    harvestAux m k st (l1 ++ l2) = harvestAux m k (harvestAux m k st l1) l2 := by
  simp [harvestAux, List.foldl_append]

theorem harvestAux_seen_src (m : Nat) (k : List Str) (l : List Cand)
    (st : List Str × List (Str × Str)) (t : Str)
    (h : t ∈ (harvestAux m k st l).1) :
    t ∈ st.1 ∨ ∃ c ∈ l, passesB m k c = true ∧ c.text = t := by
  induction l generalizing st with
  | nil => exact Or.inl h
  | cons c l ih =>
    rw [harvestAux_cons] at h
    rcases ih _ h with h1 | ⟨c', hc', hp', ht'⟩
    · rw [harvestStep_canon] at h1
      by_cases hp : passesB m k c = true
      · by_cases hm : c.text ∈ st.1
        · rw [if_pos hp, if_pos (by simpa using hm)] at h1
          exact Or.inl h1
        · rw [if_pos hp, if_neg (by simpa using hm)] at h1
          have h1' : t ∈ c.text :: st.1 := h1
          rcases List.mem_cons.mp h1' with h2 | h2
          · exact Or.inr ⟨c, by simp, hp, h2.symm⟩
          · exact Or.inl h2
      · rw [if_neg hp] at h1
        exact Or.inl h1
    · exact Or.inr ⟨c', by simp [hc'], hp', ht'⟩

theorem harvestAux_pairs_mono (m : Nat) (k : List Str) (l : List Cand)
    (st : List Str × List (Str × Str)) (p : Str × Str) (hp : p ∈ st.2) :
    p ∈ (harvestAux m k st l).2 := by
  induction l generalizing st with
  | nil => exact hp
  | cons c l ih =>
    rw [harvestAux_cons]
    apply ih
    rw [harvestStep_canon]
    by_cases hb : passesB m k c = true
    · by_cases hm : c.text ∈ st.1
      · rw [if_pos hb, if_pos (by simpa using hm)]
        exact hp
      · rw [if_pos hb, if_neg (by simpa using hm)]
        exact List.mem_append_left _ hp
    · rw [if_neg hb]
      exact hp

theorem harvestAux_nodup (m : Nat) (k : List Str) (l : List Cand)
    (st : List Str × List (Str × Str))
    (h1 : (st.2.map Prod.snd).Nodup) (h2 : ∀ t ∈ st.2.map Prod.snd, t ∈ st.1) :
    ((harvestAux m k st l).2.map Prod.snd).Nodup ∧
      ∀ t ∈ (harvestAux m k st l).2.map Prod.snd, t ∈ (harvestAux m k st l).1 := by
  induction l generalizing st with
  | nil => exact ⟨h1, h2⟩
  | cons c l ih =>
    rw [harvestAux_cons, harvestStep_canon]
    by_cases hb : passesB m k c = true
    · by_cases hm : c.text ∈ st.1
      · rw [if_pos hb, if_pos (by simpa using hm)]
        exact ih st h1 h2
      · rw [if_pos hb, if_neg (by simpa using hm)]
        refine ih _ ?_ ?_
        · show ((st.2 ++ [(c.name, c.text)]).map Prod.snd).Nodup
          rw [List.map_append, List.nodup_append]
          refine ⟨h1, by simp, ?_⟩
          intro t ht h2t
          simp only [List.map_cons, List.map_nil, List.mem_singleton] at h2t
          subst h2t
          exact hm (h2 _ ht)
        · show ∀ t ∈ (st.2 ++ [(c.name, c.text)]).map Prod.snd, t ∈ c.text :: st.1
          intro t ht
          rw [List.map_append] at ht
          rcases List.mem_append.mp ht with ht | ht
          · exact List.mem_cons_of_mem _ (h2 _ ht)
          · simp only [List.map_cons, List.map_nil, List.mem_singleton] at ht
            subst ht
            exact List.mem_cons_self _ _
    · rw [if_neg hb]
      exact ih st h1 h2

theorem harvestAux_allfail (m : Nat) (k : List Str) (l : List Cand)
    (st : List Str × List (Str × Str)) (h : ∀ c ∈ l, passesB m k c = false) :
    harvestAux m k st l = st := by
  induction l generalizing st with
  | nil => rfl
  | cons c l ih =>
    rw [harvestAux_cons, harvestStep_canon]
    rw [if_neg (by simp [h c (by simp)])]
    exact ih st (fun c' hc' => h c' (by simp [hc']))

theorem harvest_emit (m : Nat) (k : List Str) (pre post : List Cand) (c : Cand)
    (hc : passesB m k c = true)
    (hseen : c.text ∉ (harvestAux m k ([], []) pre).1) :
    (c.name, c.text) ∈ harvestPairs m k (pre ++ c :: post) := by
  unfold harvestPairs
  rw [harvestAux_append, harvestAux_cons, harvestStep_canon]
  rw [if_pos hc, if_neg (by simpa using hseen)]
  apply harvestAux_pairs_mono
  exact List.mem_append_right _ (by simp)

theorem harvest_first_attr (m : Nat) (k : List Str) (pre post : List Cand) (c : Cand)
    (hc : passesB m k c = true)
    (hpre : ∀ c' ∈ pre, ¬(passesB m k c' = true ∧ c'.text = c.text)) :
    (c.name, c.text) ∈ harvestPairs m k (pre ++ c :: post) := by
  apply harvest_emit m k pre post c hc
  intro hmem
  rcases harvestAux_seen_src m k pre ([], []) c.text hmem with h | ⟨c', hc', hp', ht'⟩
  · simp at h
  · exact hpre c' hc' ⟨hp', ht'⟩

/-- Claim C5: within one extraction, no two emitted `(tagName, text)` pairs carry
the same trimmed text, and an emitted text is attributed to the first candidate
(in document order) that passes the content filters with that text. -/
theorem C5_harvest_dedup (cfg : DomainConfig) (soup : Forest) :
    (((harvestPairs cfg.min_text_length cfg.noise_keywords
        (pipelineCandidates cfg soup)).map Prod.snd).Nodup) ∧
    (∀ pre c post, pipelineCandidates cfg soup = pre ++ c :: post →
      passesB cfg.min_text_length cfg.noise_keywords c = true →
      (∀ c' ∈ pre, ¬(passesB cfg.min_text_length cfg.noise_keywords c' = true ∧
        c'.text = c.text)) →
      (c.name, c.text) ∈ harvestPairs cfg.min_text_length cfg.noise_keywords
        (pipelineCandidates cfg soup)) := by
  constructor
  · exact (harvestAux_nodup cfg.min_text_length cfg.noise_keywords
      (pipelineCandidates cfg soup) ([], []) (by simp) (by simp)).1
  · intro pre c post hdec hc hpre
    rw [hdec]
    exact harvest_first_attr cfg.min_text_length cfg.noise_keywords pre post c hc hpre

/-- Witness for C5: two elements in different DOM locations with identical
trimmed text; the text is emitted once, for the first of them. -/
theorem C5_harvest_dedup_w :
    (pipelineCandidates c5cfg c5soup =
      [] ++ (⟨2, str "p", str "same teaser text", false⟩ : Cand) ::
        [⟨5, str "p", str "same teaser text", false⟩]) ∧
    (str "p", str "same teaser text") ∈
      harvestPairs c5cfg.min_text_length c5cfg.noise_keywords
        (pipelineCandidates c5cfg c5soup) :=
  ⟨by decide,
   (C5_harvest_dedup c5cfg c5soup).2 []
     ⟨2, str "p", str "same teaser text", false⟩
     [⟨5, str "p", str "same teaser text", false⟩]
     (by decide) (by decide) (by decide)⟩

/-- Claim C6: a candidate that passes the noise and related-heading filters is
retained when its trimmed text has exactly `min_text_length` characters (and its
text was not already seen), and discarded — contributing nothing to the output —
when it has `min_text_length - 1` characters. -/
theorem C6_min_text_length_boundary (cfg : DomainConfig) (pre post : List Cand) (c : Cand)
    (hn : is_noise c.text cfg.noise_keywords = false)
    (hr : ((c.name = str "h3" || c.name = str "h4") && c.inRelated) = false) :
    (c.text.length = cfg.min_text_length →
      c.text ∉ (harvestAux cfg.min_text_length cfg.noise_keywords ([], []) pre).1 →
      (c.name, c.text) ∈ harvestPairs cfg.min_text_length cfg.noise_keywords
        (pre ++ c :: post)) ∧
    (c.text.length + 1 = cfg.min_text_length →
      harvestPairs cfg.min_text_length cfg.noise_keywords (pre ++ c :: post) =
        harvestPairs cfg.min_text_length cfg.noise_keywords (pre ++ post)) := by
  constructor
  · intro hlen hseen
    apply harvest_emit _ _ pre post c _ hseen
    simp [passesB, hn, hr, hlen]
  · intro hlen
    have hshort : c.text.length < cfg.min_text_length := by omega
    unfold harvestPairs
    rw [harvestAux_append, harvestAux_append, harvestAux_cons,
      harvestStep_short _ _ _ _ hshort]

/-- Witness for C6: with `min_text_length = 2`, a 2-character candidate is
emitted and a 1-character candidate leaves the output unchanged. -/
theorem C6_min_text_length_boundary_w :
    ((str "p", str "hi") ∈ harvestPairs c5cfg.min_text_length c5cfg.noise_keywords
      ([] ++ (⟨1, str "p", str "hi", false⟩ : Cand) :: [])) ∧
    (harvestPairs c5cfg.min_text_length c5cfg.noise_keywords
        ([] ++ (⟨7, str "p", str "h", false⟩ : Cand) :: []) =
      harvestPairs c5cfg.min_text_length c5cfg.noise_keywords ([] ++ [])) :=
  ⟨(C6_min_text_length_boundary c5cfg [] [] ⟨1, str "p", str "hi", false⟩
      (by decide) (by decide)).1 (by decide) (by decide),
   (C6_min_text_length_boundary c5cfg [] [] ⟨7, str "p", str "h", false⟩
      (by decide) (by decide)).2 (by decide)⟩

/-- Claim C10: when the configured container is located and has non-empty
stripped text but every harvest candidate fails the content filters,
`extract_article` returns the empty string — not `None`, and without invoking
the generic fallback. -/
theorem C10_all_discarded_empty_string (cfg : DomainConfig) (soup : Forest) (fs : ENode)
    (hsel : selectOne cfg.article_container_selector soup = some fs)
    (htext : textF fs.children ≠ [])
    (hfail : ∀ c ∈ pipelineCandidates cfg soup,
      passesB cfg.min_text_length cfg.noise_keywords c = false) :
    processHtml cfg soup = PRes.content [] := by
  have hpairs : harvestPairs cfg.min_text_length cfg.noise_keywords
      (pipelineCandidates cfg soup) = [] := by
    unfold harvestPairs
    rw [harvestAux_allfail _ _ _ _ hfail]
  simp only [processHtml, hsel]
  rw [if_neg htext, hpairs]
  rfl

/-- Witness for C10: a located non-empty container whose only candidate is
shorter than `min_text_length`. -/
theorem C10_all_discarded_empty_string_w :
    selectOne c10cfg.article_container_selector c10soup =
      some ⟨1, str "div", [str "story"],
        .elem 2 (str "p") [] (.text 3 (str "too short") .nil) .nil⟩ ∧
    processHtml c10cfg c10soup = PRes.content [] :=
  ⟨by decide,
   C10_all_discarded_empty_string c10cfg c10soup
     ⟨1, str "div", [str "story"], .elem 2 (str "p") [] (.text 3 (str "too short") .nil) .nil⟩
     (by decide) (by decide) (by decide)⟩

theorem ids_pruneBy_sublist (p : ENode → Bool) (f : Forest) :
    (ids (pruneBy p f)).Sublist (ids f) := by
  induction f with
  | nil => simp [pruneBy, ids]
  | text i s r ih => simpa [pruneBy, ids] using ih
  | elem i nm cs ch r ihc ihr =>
    by_cases h : p ⟨i, nm, cs, ch⟩ <;> simp [pruneBy, ids, h]
    · exact (ihr.trans (List.sublist_append_right _ _)).cons _
    · exact List.Sublist.append ihc ihr

theorem subIds_subset_ids (m : ENode) (i : Nat) (hi : i ∈ subIds m) :
    ∀ f : Forest, m ∈ elemsOf f → i ∈ ids f := by
  intro f
  induction f with
  | nil => intro hm; simp [elemsOf] at hm
  | text j s r ih =>
    intro hm
    have hm' : m ∈ elemsOf r := by simpa [elemsOf] using hm
    simp only [ids, List.mem_cons]
    exact Or.inr (ih hm')
  | elem j nm cs ch r ihc ihr =>
    intro hm
    have hm' : m = ⟨j, nm, cs, ch⟩ ∨ m ∈ elemsOf ch ∨ m ∈ elemsOf r := by
      simpa [elemsOf] using hm
    simp only [ids, List.mem_cons, List.mem_append]
    rcases hm' with hm1 | hm1 | hm1
    · subst hm1
      have hi' : i ∈ j :: ids ch := hi
      rcases List.mem_cons.mp hi' with h2 | h2
      · exact Or.inl h2
      · exact Or.inr (Or.inl h2)
    · exact Or.inr (Or.inl (ihc hm1))
    · exact Or.inr (Or.inr (ihr hm1))

theorem pruneBy_removes (p : ENode → Bool) (m : ENode) (i : Nat) (hp : p m = true) :
    ∀ f : Forest, (ids f).Nodup → m ∈ elemsOf f → i ∈ subIds m →
      i ∉ ids (pruneBy p f) := by
  intro f
  induction f with
  | nil => intro _ hm _; simp [elemsOf] at hm
  | text j s r ih =>
    intro hnd hm hi hcontra
    have hm' : m ∈ elemsOf r := by simpa [elemsOf] using hm
    have hnd' : (ids r).Nodup := (List.nodup_cons.mp (by simpa [ids] using hnd)).2
    have hj : j ∉ ids r := (List.nodup_cons.mp (by simpa [ids] using hnd)).1
    have hcontra' : i ∈ j :: ids (pruneBy p r) := by simpa [pruneBy, ids] using hcontra
    rcases List.mem_cons.mp hcontra' with h1 | h1
    · subst h1
      exact hj (subIds_subset_ids m i hi r hm')
    · exact ih hnd' hm' hi h1
  | elem j nm cs ch r ihc ihr =>
    intro hnd hm hi hcontra
    have hnd0 : (j :: (ids ch ++ ids r)).Nodup := by simpa [ids] using hnd
    have hj : j ∉ ids ch ++ ids r := (List.nodup_cons.mp hnd0).1
    have hnd2 : (ids ch ++ ids r).Nodup := (List.nodup_cons.mp hnd0).2
    have hndc : (ids ch).Nodup := (List.nodup_append.mp hnd2).1
    have hndr : (ids r).Nodup := (List.nodup_append.mp hnd2).2.1
    have hdisj : (ids ch).Disjoint (ids r) := (List.nodup_append.mp hnd2).2.2
    have hm' : m = ⟨j, nm, cs, ch⟩ ∨ m ∈ elemsOf ch ∨ m ∈ elemsOf r := by
      simpa [elemsOf] using hm
    by_cases hhead : p ⟨j, nm, cs, ch⟩ = true
    · have heq : pruneBy p (.elem j nm cs ch r) = pruneBy p r := by
        simp [pruneBy, hhead]
      rw [heq] at hcontra
      have hir : i ∈ ids r := (ids_pruneBy_sublist p r).subset hcontra
      rcases hm' with hm1 | hm1 | hm1
      · subst hm1
        have hi' : i ∈ j :: ids ch := hi
        rcases List.mem_cons.mp hi' with h2 | h2
        · subst h2
          exact hj (List.mem_append_right _ hir)
        · exact hdisj h2 hir
      · exact hdisj (subIds_subset_ids m i hi ch hm1) hir
      · exact ihr hndr hm1 hi hcontra
    · have heq : pruneBy p (.elem j nm cs ch r) =
          .elem j nm cs (pruneBy p ch) (pruneBy p r) := by
        simp [pruneBy, hhead]
      rw [heq] at hcontra
      have hcontra' : i ∈ j :: (ids (pruneBy p ch) ++ ids (pruneBy p r)) := hcontra
      rcases List.mem_cons.mp hcontra' with h1 | h1
      · subst h1
        rcases hm' with hm1 | hm1 | hm1
        · subst hm1
          exact hhead hp
        · exact hj (List.mem_append_left _ (subIds_subset_ids m i hi ch hm1))
        · exact hj (List.mem_append_right _ (subIds_subset_ids m i hi r hm1))
      · rcases List.mem_append.mp h1 with h2 | h2
        · rcases hm' with hm1 | hm1 | hm1
          · subst hm1
            exact hhead hp
          · exact ihc hndc hm1 hi h2
          · exact hdisj ((ids_pruneBy_sublist p ch).subset h2)
              (subIds_subset_ids m i hi r hm1)
        · rcases hm' with hm1 | hm1 | hm1
          · subst hm1
            exact hhead hp
          · exact hdisj (subIds_subset_ids m i hi ch hm1)
              ((ids_pruneBy_sublist p r).subset h2)
          · exact ihr hndr hm1 hi h2

theorem pruneBy_preserves_match (sel : Selector) (p : ENode → Bool) (i : Nat) :
    ∀ f : Forest, (ids f).Nodup →
      (∃ m ∈ elemsOf f, selMatches sel m = true ∧ i ∈ subIds m) →
      i ∈ ids (pruneBy p f) →
      ∃ m ∈ elemsOf (pruneBy p f), selMatches sel m = true ∧ i ∈ subIds m := by
  intro f
  induction f with
  | nil =>
    intro _ _ hi
    simp [pruneBy, ids] at hi
  | text j s r ih =>
    intro hnd hum hi
    obtain ⟨m, hm, hselm, him⟩ := hum
    have hm' : m ∈ elemsOf r := by simpa [elemsOf] using hm
    have hnd' : (ids r).Nodup := (List.nodup_cons.mp (by simpa [ids] using hnd)).2
    have hj : j ∉ ids r := (List.nodup_cons.mp (by simpa [ids] using hnd)).1
    have hi' : i ∈ j :: ids (pruneBy p r) := by simpa [pruneBy, ids] using hi
    rcases List.mem_cons.mp hi' with h1 | h1
    · subst h1
      exact absurd (subIds_subset_ids m i him r hm') hj
    · obtain ⟨m2, hm2, hsel2, him2⟩ := ih hnd' ⟨m, hm', hselm, him⟩ h1
      exact ⟨m2, by simpa [elemsOf, pruneBy] using hm2, hsel2, him2⟩
  | elem j nm cs ch r ihc ihr =>
    intro hnd hum hi
    obtain ⟨m, hm, hselm, him⟩ := hum
    have hnd0 : (j :: (ids ch ++ ids r)).Nodup := by simpa [ids] using hnd
    have hj : j ∉ ids ch ++ ids r := (List.nodup_cons.mp hnd0).1
    have hnd2 : (ids ch ++ ids r).Nodup := (List.nodup_cons.mp hnd0).2
    have hndc : (ids ch).Nodup := (List.nodup_append.mp hnd2).1
    have hndr : (ids r).Nodup := (List.nodup_append.mp hnd2).2.1
    have hdisj : (ids ch).Disjoint (ids r) := (List.nodup_append.mp hnd2).2.2
    have hm' : m = ⟨j, nm, cs, ch⟩ ∨ m ∈ elemsOf ch ∨ m ∈ elemsOf r := by
      simpa [elemsOf] using hm
    by_cases hhead : p ⟨j, nm, cs, ch⟩ = true
    · have heq : pruneBy p (.elem j nm cs ch r) = pruneBy p r := by
        simp [pruneBy, hhead]
      rw [heq] at hi ⊢
      have hir : i ∈ ids r := (ids_pruneBy_sublist p r).subset hi
      rcases hm' with hm1 | hm1 | hm1
      · subst hm1
        have hi2 : i ∈ j :: ids ch := him
        rcases List.mem_cons.mp hi2 with h2 | h2
        · subst h2
          exact absurd (List.mem_append_right _ hir) hj
        · exact (hdisj h2 hir).elim
      · exact (hdisj (subIds_subset_ids m i him ch hm1) hir).elim
      · exact ihr hndr ⟨m, hm1, hselm, him⟩ hi
    · have heq : pruneBy p (.elem j nm cs ch r) =
          .elem j nm cs (pruneBy p ch) (pruneBy p r) := by
        simp [pruneBy, hhead]
      rw [heq] at hi ⊢
      have hi' : i ∈ j :: (ids (pruneBy p ch) ++ ids (pruneBy p r)) := hi
      rcases hm' with hm1 | hm1 | hm1
      · subst hm1
        refine ⟨⟨j, nm, cs, pruneBy p ch⟩, by simp [elemsOf], hselm, ?_⟩
        have hi2 : i ∈ j :: ids ch := him
        show i ∈ j :: ids (pruneBy p ch)
        rcases List.mem_cons.mp hi' with h1 | h1
        · simp [h1]
        · rcases List.mem_append.mp h1 with h2 | h2
          · exact List.mem_cons_of_mem _ h2
          · have hir : i ∈ ids r := (ids_pruneBy_sublist p r).subset h2
            rcases List.mem_cons.mp hi2 with h3 | h3
            · subst h3
              exact absurd (List.mem_append_right _ hir) hj
            · exact (hdisj h3 hir).elim
      · rcases List.mem_cons.mp hi' with h1 | h1
        · subst h1
          exact absurd (List.mem_append_left _ (subIds_subset_ids m i him ch hm1)) hj
        · rcases List.mem_append.mp h1 with h2 | h2
          · obtain ⟨m2, hm2, hsel2, him2⟩ := ihc hndc ⟨m, hm1, hselm, him⟩ h2
            exact ⟨m2, by simp [elemsOf, hm2], hsel2, him2⟩
          · exact ((hdisj (subIds_subset_ids m i him ch hm1)
              ((ids_pruneBy_sublist p r).subset h2))).elim
      · rcases List.mem_cons.mp hi' with h1 | h1
        · subst h1
          exact absurd (List.mem_append_right _ (subIds_subset_ids m i him r hm1)) hj
        · rcases List.mem_append.mp h1 with h2 | h2
          · exact ((hdisj ((ids_pruneBy_sublist p ch).subset h2)
              (subIds_subset_ids m i him r hm1))).elim
          · obtain ⟨m2, hm2, hsel2, him2⟩ := ihr hndr ⟨m, hm1, hselm, him⟩ h2
            exact ⟨m2, by simp [elemsOf, hm2], hsel2, him2⟩

theorem pruneFold_subset (sels : List Selector) :
    ∀ (f : Forest) (i : Nat),
      i ∈ ids (sels.foldl (fun f s => pruneBy (fun e => selMatches s e) f) f) → i ∈ ids f := by
  induction sels with
  | nil =>
    intro f i h
    simpa using h
  | cons s rest ih =>
    intro f i h
    rw [List.foldl_cons] at h
    exact (ids_pruneBy_sublist _ f).subset (ih _ i h)

theorem pruneFold_removes (sel : Selector) (i : Nat) :
    ∀ sels : List Selector, sel ∈ sels →
      ∀ f : Forest, (ids f).Nodup →
        (∃ m ∈ elemsOf f, selMatches sel m = true ∧ i ∈ subIds m) →
        i ∉ ids (sels.foldl (fun f s => pruneBy (fun e => selMatches s e) f) f) := by
  intro sels
  induction sels with
  | nil => intro h; simp at h
  | cons s rest ih =>
    intro hsel f hnd hum
    rw [List.foldl_cons]
    rcases List.mem_cons.mp hsel with h1 | h1
    · subst h1
      obtain ⟨m, hm, hselm, him⟩ := hum
      have hout : i ∉ ids (pruneBy (fun e => selMatches sel e) f) :=
        pruneBy_removes _ m i hselm f hnd hm him
      intro hcontra
      exact hout (pruneFold_subset rest _ i hcontra)
    · by_cases hin : i ∈ ids (pruneBy (fun e => selMatches s e) f)
      · exact ih h1 _ ((ids_pruneBy_sublist _ f).nodup hnd)
          (pruneBy_preserves_match sel _ i f hnd hum hin)
      · intro hcontra
        exact hin (pruneFold_subset rest _ i hcontra)

theorem noiseStep_cases (f : Forest) (tid : Nat) :
    noiseStep f tid = f ∨
      ∃ p : ENode, noiseStep f tid = pruneBy (fun e => e.id = p.id) f := by
  unfold noiseStep
  cases findParentOfText tid f with
  | none => exact Or.inl rfl
  | some p =>
    by_cases hc : (smallTags.contains p.name &&
        decide ((textF p.children).length < 200)) = true
    · exact Or.inr ⟨p, by simp only [hc, if_true]⟩
    · refine Or.inl ?_
      show (if (smallTags.contains p.name && decide ((textF p.children).length < 200)) = true
        then pruneBy (fun e => decide (e.id = p.id)) f else f) = f
      rw [if_neg hc]

theorem noiseStep_subset (f : Forest) (tid i : Nat)
    (h : i ∈ ids (noiseStep f tid)) : i ∈ ids f := by
  rcases noiseStep_cases f tid with hc | ⟨p, hc⟩ <;> rw [hc] at h
  · exact h
  · exact (ids_pruneBy_sublist _ f).subset h

theorem noiseFold_subset (tids : List Nat) :
    ∀ (f : Forest) (i : Nat), i ∈ ids (tids.foldl noiseStep f) → i ∈ ids f := by
  induction tids with
  | nil =>
    intro f i h
    simpa using h
  | cons t rest ih =>
    intro f i h
    rw [List.foldl_cons] at h
    exact noiseStep_subset f t i (ih _ i h)

theorem harvestSource_keeps_out (cfg : DomainConfig) (soup : Forest) (i : Nat)
    (h : i ∉ ids (cfg.elements_to_remove.foldl
      (fun f sel => pruneBy (fun e => selMatches sel e) f) soup)) :
    i ∉ ids (harvestSource cfg soup) := by
  intro hcontra
  apply h
  simp only [harvestSource] at hcontra
  by_cases hk : cfg.noise_keywords = []
  · rw [if_pos hk] at hcontra
    exact hcontra
  · rw [if_neg hk] at hcontra
    exact noiseFold_subset _ _ i hcontra

theorem getByIdFlag_elem (i : Nat) :
    ∀ (f : Forest) (anc : Bool) (b : ENode) (fb : Bool),
      getByIdFlag i anc f = some (b, fb) → b ∈ elemsOf f := by
  intro f
  induction f with
  | nil =>
    intro anc b fb h
    simp [getByIdFlag] at h
  | text j s r ih =>
    intro anc b fb h
    have h' : getByIdFlag i anc r = some (b, fb) := by simpa [getByIdFlag] using h
    simpa [elemsOf] using ih anc b fb h'
  | elem j nm cs ch r ihc ihr =>
    intro anc b fb h
    by_cases hj : j = i
    · rw [show getByIdFlag i anc (.elem j nm cs ch r) = some (⟨j, nm, cs, ch⟩, anc) from by
        simp [getByIdFlag, hj]] at h
      obtain ⟨hb, _⟩ := Prod.mk.injEq .. ▸ (Option.some.injEq _ _ ▸ h)
      simp [elemsOf, ← hb]
    · rw [show getByIdFlag i anc (.elem j nm cs ch r) =
          (match getByIdFlag i (anc || relatedCls ⟨j, nm, cs, ch⟩) ch with
           | some res => some res
           | none => getByIdFlag i anc r) from by simp [getByIdFlag, hj]] at h
      cases hc : getByIdFlag i (anc || relatedCls ⟨j, nm, cs, ch⟩) ch with
      | some res =>
        rw [hc] at h
        have hres : res = (b, fb) := by simpa using h
        subst hres
        exact by simp [elemsOf, ihc _ b fb hc]
      | none =>
        rw [hc] at h
        exact by simp [elemsOf, ihr anc b fb h]

theorem candsIn_id_mem (allowed : List Str) :
    ∀ (f : Forest) (anc : Bool) (c : Cand),
      c ∈ candsIn allowed anc f → c.id ∈ ids f := by
  intro f
  induction f with
  | nil =>
    intro anc c h
    simp [candsIn] at h
  | text j s r ih =>
    intro anc c h
    have h' : c ∈ candsIn allowed anc r := by simpa [candsIn] using h
    simp only [ids, List.mem_cons]
    exact Or.inr (ih anc c h')
  | elem j nm cs ch r ihc ihr =>
    intro anc c h
    simp only [candsIn] at h
    simp only [ids, List.mem_cons, List.mem_append]
    rcases List.mem_append.mp h with h1 | h1
    · by_cases hall : allowed.contains nm
      · rw [if_pos hall] at h1
        have hc : c = ⟨j, nm, textF ch, anc⟩ := by simpa using h1
        subst hc
        exact Or.inl rfl
      · rw [if_neg hall] at h1
        simp at h1
    · rcases List.mem_append.mp h1 with h2 | h2
      · exact Or.inr (Or.inl (ihc _ c h2))
      · exact Or.inr (Or.inr (ihr _ c h2))

theorem mem_foldr_append {α β : Type} (g : α → List β) (l : List α) (c : β)
    (h : c ∈ l.foldr (fun i acc => g i ++ acc) []) : ∃ i ∈ l, c ∈ g i := by
  induction l with
  | nil => simp at h
  | cons a as ih =>
    simp only [List.foldr_cons] at h
    rcases List.mem_append.mp h with h1 | h1
    · exact ⟨a, by simp, h1⟩
    · obtain ⟨i, hi, hc⟩ := ih h1
      exact ⟨i, by simp [hi], hc⟩

theorem pipelineCandidates_id_mem (cfg : DomainConfig) (soup : Forest) (c : Cand)
    (h : c ∈ pipelineCandidates cfg soup) :
    c.id ∈ ids (harvestSource cfg soup) := by
  unfold pipelineCandidates at h
  cases hsel : selectOne cfg.article_container_selector soup with
  | none =>
    rw [hsel] at h
    simp at h
  | some fs =>
    rw [hsel] at h
    obtain ⟨i, _, hc⟩ := mem_foldr_append _ _ _ h
    cases hb : getByIdFlag i false (harvestSource cfg soup) with
    | none =>
      rw [hb] at hc
      simp at hc
    | some bf =>
      obtain ⟨b, fb⟩ := bf
      rw [hb] at hc
      have h1 : c.id ∈ ids b.children := candsIn_id_mem _ _ _ c hc
      have h2 : b ∈ elemsOf (harvestSource cfg soup) := getByIdFlag_elem i _ _ b fb hb
      exact subIds_subset_ids b c.id (List.mem_cons_of_mem _ h1) _ h2

/-- Claim C8: for every selector in `elements_to_remove`, every node inside a
document subtree matched by that selector is deleted before the harvest step —
its id is absent from the tree that harvesting reads, so no harvest candidate
(whatever its tag or text) can originate from it. -/
theorem C8_removed_before_harvest (cfg : DomainConfig) (soup : Forest) (sel : Selector)
    (m : ENode) (i : Nat)
    (hsel : sel ∈ cfg.elements_to_remove)
    (hnd : (ids soup).Nodup)
    (hm : m ∈ elemsOf soup)
    (hmatch : selMatches sel m = true)
    (hi : i ∈ subIds m) :
    i ∉ ids (harvestSource cfg soup) ∧
      ∀ c ∈ pipelineCandidates cfg soup, c.id ≠ i := by
  have hout : i ∉ ids (cfg.elements_to_remove.foldl
      (fun f s => pruneBy (fun e => selMatches s e) f) soup) :=
    pruneFold_removes sel i cfg.elements_to_remove hsel soup hnd ⟨m, hm, hmatch, hi⟩
  have hsrc := harvestSource_keeps_out cfg soup i hout
  refine ⟨hsrc, ?_⟩
  intro c hc hceq
  exact hsrc (hceq ▸ pipelineCandidates_id_mem cfg soup c hc)

/-- Witness for C8: the `p` element (id 5) inside the matched `.ad-slot`
subtree is gone from the harvest source and yields no candidate. -/
theorem C8_removed_before_harvest_w :
    (⟨none, [str "ad-slot"], []⟩ : Selector) ∈ c8cfg.elements_to_remove ∧
    (5 ∉ ids (harvestSource c8cfg c8soup) ∧
      ∀ c ∈ pipelineCandidates c8cfg c8soup, c.id ≠ 5) :=
  ⟨by decide,
   C8_removed_before_harvest c8cfg c8soup ⟨none, [str "ad-slot"], []⟩ c8ad 5
     (by decide) (by decide) (by decide) (by decide) (by decide)⟩

theorem noiseStep_conditions (t : Forest) (tid : Nat) (h : noiseStep t tid ≠ t) :
    ∃ p : ENode, findParentOfText tid t = some p ∧
      smallTags.contains p.name = true ∧ (textF p.children).length < 200 := by
  unfold noiseStep at h
  cases hf : findParentOfText tid t with
  | none =>
    rw [hf] at h
    exact absurd rfl h
  | some p =>
    rw [hf] at h
    have h2 : (if (smallTags.contains p.name &&
        decide ((textF p.children).length < 200)) = true
        then pruneBy (fun e => decide (e.id = p.id)) t else t) ≠ t := h
    by_cases hc : (smallTags.contains p.name &&
        decide ((textF p.children).length < 200)) = true
    · have hc' := hc
      rw [Bool.and_eq_true, decide_eq_true_eq] at hc'
      exact ⟨p, rfl, hc'.1, hc'.2⟩
    · rw [if_neg hc] at h2
      exact absurd rfl h2

theorem noiseTargets_mem (kws : List Str) (f : Forest) (tid : Nat)
    (h : tid ∈ noiseTargets kws f) :
    ∃ s, (tid, s) ∈ textNodesOf f ∧ kws.any (fun k => matchesCI s k) = true := by
  unfold noiseTargets at h
  rcases List.mem_filterMap.mp h with ⟨⟨i, s⟩, hmem, heq⟩
  by_cases hk : kws.any (fun k => matchesCI s k) = true
  · rw [if_pos hk] at heq
    have : i = tid := by simpa using heq
    subst this
    exact ⟨s, hmem, hk⟩
  · rw [if_neg hk] at heq
    simp at heq

/-- Claim C7 as amended: the noise-removal loop processes the matching text
nodes in document order against the current tree.  A decompose is performed only
when, at that moment, the text node is still attached, its immediate parent is a
div/span/aside/footer/nav, and the parent's current stripped text is under 200
characters; every processed text node case-insensitively contains a noise
keyword.  Because earlier decomposes can shrink an ancestor's text below 200,
the "never removed when >= 200 characters" guarantee holds only for the text as
measured at processing time, not for the original tree (see the
counterexample). -/
theorem C7_amended :
    (∀ (t : Forest) (tid : Nat), noiseStep t tid ≠ t →
      ∃ p : ENode, findParentOfText tid t = some p ∧
        smallTags.contains p.name = true ∧ (textF p.children).length < 200) ∧
    (∀ (kws : List Str) (f : Forest) (tid : Nat), tid ∈ noiseTargets kws f →
      ∃ s, (tid, s) ∈ textNodesOf f ∧ kws.any (fun k => matchesCI s k) = true) ∧
    (∀ (kws : List Str) (f : Forest),
      noiseRemoval kws f = (noiseTargets kws f).foldl noiseStep f) :=
  ⟨noiseStep_conditions, noiseTargets_mem, fun _ _ => rfl⟩

set_option maxRecDepth 40000 in
/-- Witness for C7 (amended): the first removal performed on the
counterexample document targets the small inner container (id 2). -/
theorem C7_amended_w :
    noiseStep c7doc 3 ≠ c7doc ∧
    ∃ p : ENode, findParentOfText 3 c7doc = some p ∧
      smallTags.contains p.name = true ∧ (textF p.children).length < 200 :=
  ⟨by decide, C7_amended.1 c7doc 3 (by decide)⟩

set_option maxRecDepth 40000 in
/-- Counterexample to claim C7: the outer `div` (id 1) has 210 >= 200
characters of stripped text and contains a noise keyword, yet the noise-removal
step deletes it — the earlier removal of its small inner container (id 2)
shrinks its text to 180 characters before it is processed.  The claim's
"a container with at least 200 characters of text is never removed by this
step" is therefore false of the code. -/
theorem C7_counterexample :
    (textF c7inner).length = 210 ∧
    smallTags.contains (str "div") = true ∧
    (∃ s, (4, s) ∈ textNodesOf c7doc ∧ matchesCI s (str "advertisement") = true) ∧
    1 ∈ ids c7doc ∧
    1 ∉ ids (noiseRemoval c7kws c7doc) :=
  ⟨by decide, by decide, ⟨c7s2, by decide, by decide⟩, by decide, by decide⟩
